import Mathlib

/-!
Verification of the auto-semver-tag decision core.

This file gives a shallow embedding, in Lean 4, of the semantic-version
parser/comparator (`pkg/semver/semver.go`) and of the merge-event evaluation
logic (`pkg/git/git.go`, together with the two earlier revisions of that file
present in the repository), and proves the specification claims about them.

Machine integers: Go's `uint64` is modelled as `Nat`; the only arithmetic the
source performs on these fields is `+ 1`, embedded as addition followed by
reduction modulo `2 ^ 64` (the constant `UINT64_MOD` below), exactly the Go
wrap-around semantics.  Comparisons on in-range values agree with Go.

Strings: Go strings are byte slices; all characters this program manipulates
are ASCII, so a Go string is modelled as `String` / `List Char` with Go's
byte-wise string comparison coinciding with Lean's character-wise order.
-/

/-- 2 ^ 64, the modulus of Go's `uint64` arithmetic. -/
def UINT64_MOD : Nat := 18446744073709551616

/-- Embedding of `type SemVer struct { major, minor, patch uint64 }`. -/
structure SemVer where
  major : Nat
  minor : Nat
  patch : Nat
deriving DecidableEq

/-- Embedding of `type IncrementType string`.  The Go source compares these
values with the raw string order (`t < incType`), relying on the alphabetic
order "major" < "minor" < "patch" < "unknown". -/
abbrev IncrementType := String

def IncrementTypeMajor : IncrementType := "major"

def IncrementTypeMinor : IncrementType := "minor"

def IncrementTypePatch : IncrementType := "patch"

def IncrementTypeUnknown : IncrementType := "unknown"

/-- Embedding of `StringToIncrementType` (a `switch` on string equality). -/
def StringToIncrementType (val : String) : IncrementType :=
  if val = IncrementTypeMajor then IncrementTypeMajor
  else if val = IncrementTypeMinor then IncrementTypeMinor
  else if val = IncrementTypePatch then IncrementTypePatch
  else IncrementTypeUnknown

/-- Embedding of `func (s SemVer) IncrementVersion(incrementType IncrementType) SemVer`.
The `uint64` addition wraps modulo `2 ^ 64`.  Go panics on the `default`
branch (`panic("invalid increment type")`); the panic is modelled as `none`. -/
def SemVer.IncrementVersion (s : SemVer) (incrementType : IncrementType) : Option SemVer :=
  if incrementType = IncrementTypeMajor then
    some ⟨(s.major + 1) % UINT64_MOD, 0, 0⟩
  else if incrementType = IncrementTypeMinor then
    some ⟨s.major, (s.minor + 1) % UINT64_MOD, 0⟩
  else if incrementType = IncrementTypePatch then
    some ⟨s.major, s.minor, (s.patch + 1) % UINT64_MOD⟩
  else
    none

/-- Embedding of `func (s SemVer) IsGreaterThan(o SemVer) bool`: the chain of
early returns in the source linearizes into this nested conditional. -/
def SemVer.IsGreaterThan (s o : SemVer) : Bool :=
  if s.major > o.major then true
  else if s.major < o.major then false
  else if s.minor > o.minor then true
  else if s.minor < o.minor then false
  else if s.patch > o.patch then true
  else false

/-- ASCII decimal digit test (`0`-`9`, byte values 48 to 57). -/
def isDigit (c : Char) : Bool :=
  decide (48 ≤ c.toNat) && decide (c.toNat ≤ 57)

/-- Numeric value of an ASCII digit character. -/
def digitVal (c : Char) : Nat := c.toNat - 48

/-- Value of a big-endian ASCII digit string. -/
def digitsToNat (l : List Char) : Nat :=
  l.foldl (fun acc c => acc * 10 + digitVal c) 0

/-- The ASCII character of a decimal digit value. -/
def digitChar (n : Nat) : Char :=
  match n with
  | 0 => '0'
  | 1 => '1'
  | 2 => '2'
  | 3 => '3'
  | 4 => '4'
  | 5 => '5'
  | 6 => '6'
  | 7 => '7'
  | 8 => '8'
  | 9 => '9'
  | _ => '*'

/-- Big-endian decimal digits of a natural number, with explicit fuel so that
the definition is structurally recursive (and hence evaluates inside
`decide`).  Fuel `n + 1` always suffices for input `n`. -/
def natToDigitsAux : Nat → Nat → List Char
  | 0, _ => []
  | fuel + 1, n =>
    if n < 10 then [digitChar n]
    else natToDigitsAux fuel (n / 10) ++ [digitChar (n % 10)]

/-- Decimal representation of a natural number, as produced by Go's `%d`
format verb: no sign, no padding, no leading zeros except for `0` itself. -/
def natToDigits (n : Nat) : List Char := natToDigitsAux (n + 1) n

/-- Embedding of `func (s SemVer) String() string`, that is,
`fmt.Sprintf("v%d.%d.%d", s.major, s.minor, s.patch)`. -/
def SemVer.string (s : SemVer) : String :=
  ⟨'v' :: (natToDigits s.major ++ '.' :: (natToDigits s.minor ++ '.' :: natToDigits s.patch))⟩

/-- Embedding of `strconv.ParseUint(s, 10, 64)`: succeeds exactly on a
nonempty all-digit string whose value fits in 64 unsigned bits; `none` stands
for both the syntax error and the range error (the caller only tests
`err != nil`). -/
def parseUint64 (l : List Char) : Option Nat :=
  if l = [] then none
  else if l.all isDigit then
    let v := digitsToNat l
    if v < UINT64_MOD then some v else none
  else none

/-- Embedding of the leading-`v` strip:
`if strings.Index(semVer, "v") == 0 { semVer = semVer[1:] }`. -/
def stripV (l : List Char) : List Char :=
  if l.head? = some 'v' then l.tail else l

/-- Embedding of `strings.SplitN(semVer, ".", 3)`: split at the first two
occurrences of `.`; the third piece keeps any further dots. -/
def splitN3 (l : List Char) : List (List Char) :=
  match l.dropWhile (fun c => c ≠ '.') with
  | [] => [l.takeWhile (fun c => c ≠ '.')]
  | _ :: r1 =>
    match r1.dropWhile (fun c => c ≠ '.') with
    | [] => [l.takeWhile (fun c => c ≠ '.'), r1.takeWhile (fun c => c ≠ '.')]
    | _ :: r2 =>
      [l.takeWhile (fun c => c ≠ '.'), r1.takeWhile (fun c => c ≠ '.'), r2]

/-- Embedding of `strings.IndexRune`: index of the first occurrence of `c`,
`none` when absent (Go returns `-1`; all relevant characters are ASCII, so
byte and rune indices coincide). -/
def indexOfChar (c : Char) : List Char → Option Nat
  | [] => none
  | x :: xs =>
    if x = c then some 0
    else (indexOfChar c xs).map (· + 1)

/-- Embedding of the statement pattern
`if i := strings.IndexRune(s, c); i != -1 { s = s[:i] }`: cut a string at the
first occurrence of a character. -/
def cutAtChar (c : Char) (l : List Char) : List Char :=
  match indexOfChar c l with
  | some i => l.take i
  | none => l

/-- Embedding of the two suffix-stripping statements of `New`: first cut at
the first `+` (build metadata), then cut at the first `-` (prerelease). -/
def stripBuildAndPre (patchStr : List Char) : List Char :=
  cutAtChar '-' (cutAtChar '+' patchStr)

/-- Characters allowed in prerelease and build identifiers: `[0-9a-zA-Z-]`. -/
def isIdentChar (c : Char) : Bool :=
  isDigit c || (decide (65 ≤ c.toNat) && decide (c.toNat ≤ 90))
    || (decide (97 ≤ c.toNat) && decide (c.toNat ≤ 122)) || decide (c = '-')

/-- One prerelease identifier, per the regex alternative
`0|[1-9]\d*|\d*[a-zA-Z-][0-9a-zA-Z-]*`: nonempty, over `[0-9a-zA-Z-]`, and,
when it is all digits, free of leading zeros. -/
def validPreIdent (l : List Char) : Bool :=
  !l.isEmpty && l.all isIdentChar
    && (!l.all isDigit || decide (l = ['0']) || !decide (l.head? = some '0'))

/-- One build identifier, per `[0-9a-zA-Z-]+`: nonempty over `[0-9a-zA-Z-]`. -/
def validBuildIdent (l : List Char) : Bool :=
  !l.isEmpty && l.all isIdentChar

/-- Split a character list at every occurrence of `c` (all occurrences; used
for the dot-separated identifier lists of the regex). -/
def splitOnChar (c : Char) : List Char → List (List Char)
  | [] => [[]]
  | x :: xs =>
    let r := splitOnChar c xs
    if x = c then [] :: r
    else
      match r with
      | [] => [[x]]
      | y :: ys => (x :: y) :: ys

/-- The optional `(?:-(prerelease))?(?:\+(build))?$` tail of the semver regex.
Backtracking is determinate here: a leading `-` forces the prerelease group,
a leading `+` forces the build group, the prerelease extends to the first `+`
(its character class excludes `+`), and anything else fails. -/
def matchSuffix (l : List Char) : Bool :=
  match l with
  | [] => true
  | c :: rest =>
    if c = '-' then
      (splitOnChar '.' (rest.takeWhile (fun x => x ≠ '+'))).all validPreIdent
        && (match rest.dropWhile (fun x => x ≠ '+') with
            | [] => true
            | _ :: build => (splitOnChar '.' build).all validBuildIdent)
    else if c = '+' then (splitOnChar '.' rest).all validBuildIdent
    else false

/-- The regex alternative `(0|[1-9]\d*)`: because every use is followed by a
non-digit required context (`\.`, the suffix, or the anchor), backtracking
must consume the maximal digit run, which then matches the alternation
exactly when it is `0` or has no leading zero.  Returns the digit run and the
remaining input. -/
def matchNumComp (l : List Char) : Option (List Char × List Char) :=
  if l.takeWhile isDigit = [] then none
  else if (l.takeWhile isDigit).head? = some '0' ∧ l.takeWhile isDigit ≠ ['0'] then none
  else some (l.takeWhile isDigit, l.dropWhile isDigit)

/-- Deterministic embedding of Go's `regexp.MatchString(SemVerRegExp, s)` for
the anchored pattern
`^v?(0|[1-9]\d*)\.(0|[1-9]\d*)\.(0|[1-9]\d*)(?:-(pre))?(?:\+(build))?$`.
A leading `v` must be consumed when present (the following group starts with
a digit), so the optional `v?` is determinate as well.  On success it returns
the three captured numeric components. -/
def semverMatch (l0 : List Char) : Option (List Char × List Char × List Char) :=
  match matchNumComp (stripV l0) with
  | none => none
  | some (d1, r1) =>
    match r1 with
    | [] => none
    | c1 :: r2 =>
      if c1 = '.' then
        match matchNumComp r2 with
        | none => none
        | some (d2, r3) =>
          match r3 with
          | [] => none
          | c2 :: r4 =>
            if c2 = '.' then
              match matchNumComp r4 with
              | none => none
              | some (d3, r5) => if matchSuffix r5 then some (d1, d2, d3) else none
            else none
      else none

/-- Embedding of `newInvalidSemVerError`: the zero `SemVer` paired with the
`invalid semver: ...` error message. -/
def newInvalidSemVerError (l : List Char) : SemVer × Option String :=
  (⟨0, 0, 0⟩, some ("invalid semver: " ++ String.mk l))

/-- Embedding of `func New(semVer string) (SemVer, error)`.  The second
component is `some msg` exactly when Go returns a non-nil error.  The
`regexp.MatchString` compile error cannot occur (the pattern is a constant),
so only the match result is modelled.  The final wildcard branch is
unreachable: the regex guarantees at least two dots, so `SplitN` yields three
parts (Go would panic on an out-of-range index there). -/
def SemVer.New (semVer : String) : SemVer × Option String :=
  if (semverMatch semVer.data).isSome = false then newInvalidSemVerError semVer.data
  else
    let l := stripV semVer.data
    match splitN3 l with
    | [p0, p1, p2] =>
      match parseUint64 p0 with
      | none => newInvalidSemVerError l
      | some major =>
        match parseUint64 p1 with
        | none => newInvalidSemVerError l
        | some minor =>
          match parseUint64 (stripBuildAndPre p2) with
          | none => newInvalidSemVerError l
          | some patch => (⟨major, minor, patch⟩, none)
    | _ => newInvalidSemVerError l

/-!
The merge-event evaluation logic.  The repository holds three revisions of
the `git` package: the current `pkg/git/git.go`, and two earlier revisions
(the unnamed source files `part_004` and `part_005`).  All three are
embedded; their common event/repository data is shared.

An event is evaluated to an `ActionResult`, which records the observable
outcome of `PerformAction`: an error return, a successful return without a
tag request, a successful return that requested the creation of one tag, or
a Go runtime panic.
-/

/-- The fields of `github.PullRequestEvent.PullRequest` that the decision
logic reads.  `baseRef` collapses the two-level pointer `pr.Base.Ref` (both
nil cases lead to the same behaviour in every revision). -/
structure PullRequestData where
  merged : Option Bool
  baseRef : Option String
  mergeCommitSha : Option String
  labels : List (Option String)

/-- The fields of `github.PullRequestEvent` that the decision logic reads. -/
structure PullRequestEvent where
  action : Option String
  pullRequest : Option PullRequestData

/-- Embedding of `type Repository struct` of `pkg/git/git.go`. -/
structure Repository where
  name : String
  owner : String
  releaseBranch : String
  version : SemVer

/-- Embedding of `type Repository struct` of the `part_004` revision, which
additionally records the commit the current version was tagged at. -/
structure RepositoryV4 where
  name : String
  owner : String
  releaseBranch : String
  version : SemVer
  versionHash : String

/-- Embedding of `type GitRepository struct` of the `part_005` revision. -/
structure GitRepository where
  name : String
  owner : String
  releaseBranch : String
  version : SemVer

/-- Observable outcome of one `PerformAction` invocation. -/
inductive ActionResult where
  | error (msg : String)
  | noTag
  | createTag (tagName : String) (commitSha : String)
  | goPanic (msg : String)
deriving DecidableEq

/-- Go's `<` on strings: lexicographic byte-wise comparison (identical to
character-wise comparison on the ASCII strings this program handles). -/
def goStringLt : List Char → List Char → Bool
  | [], [] => false
  | [], _ :: _ => true
  | _ :: _, [] => false
  | a :: as, b :: bs =>
    if a.toNat < b.toNat then true
    else if b.toNat < a.toNat then false
    else goStringLt as bs

/-- Embedding of `parsePullRequestLabels` of `pkg/git/git.go` (shared with
the `part_004` revision): fold over the labels, keeping the smallest mapped
`IncrementType` under Go's raw string order (`t < incType`). -/
def parsePullRequestLabels (labels : List (Option String)) : IncrementType :=
  labels.foldl
    (fun incType label =>
      match label with
      | none => incType
      | some name =>
        let t := StringToIncrementType name
        if goStringLt t.data incType.data then t else incType)
    IncrementTypeUnknown

/-- Embedding of `func (g *GithubClient) PerformAction` of `pkg/git/git.go`
(the current revision), from the point where the event has been parsed.  The
`createTag` collaborator call is recorded, not performed. -/
def PerformAction (g : Repository) (commitSha : String) (event : PullRequestEvent) :
    ActionResult :=
  match event.pullRequest with
  | none => ActionResult.error "pull request not found in data file"
  | some pr =>
    let action := event.action.getD ""
    let isMerged := pr.merged.getD false
    let baseRef := pr.baseRef.getD ""
    if action ≠ "closed" then
      ActionResult.error ("pull request is not closed: " ++ action)
    else if isMerged = false then
      ActionResult.error "pull request is not merged"
    else if baseRef ≠ g.releaseBranch then
      ActionResult.error ("pull request merged into a different branch (expected: "
        ++ g.releaseBranch ++ ", actual: " ++ baseRef ++ ")")
    else
      let incrementType := parsePullRequestLabels pr.labels
      if incrementType = IncrementTypeUnknown then ActionResult.noTag
      else
        match g.version.IncrementVersion incrementType with
        | none => ActionResult.goPanic "invalid increment type"
        | some newVersion => ActionResult.createTag newVersion.string commitSha

/-- Embedding of `PerformAction` of the `part_004` revision (the strict-mode
variant): after the branch check it verifies that the event's merge commit
matches the workflow commit, and skips tagging when that commit already
carries the current version's tag.  `pr.GetMergeCommitSHA()` is the nil-safe
getter, hence `getD ""`. -/
def PerformActionV4 (g : RepositoryV4) (commitSha : String) (event : PullRequestEvent) :
    ActionResult :=
  match event.pullRequest with
  | none => ActionResult.error "pull request not found in data file"
  | some pr =>
    let action := event.action.getD ""
    let isMerged := pr.merged.getD false
    let baseRef := pr.baseRef.getD ""
    let mergeCommit := pr.mergeCommitSha.getD ""
    if action ≠ "closed" then
      ActionResult.error ("pull request is not closed: " ++ action)
    else if isMerged = false then
      ActionResult.error "pull request is not merged"
    else if baseRef ≠ g.releaseBranch then
      ActionResult.error ("pull request merged into a different branch (expected: "
        ++ g.releaseBranch ++ ", actual: " ++ baseRef ++ ")")
    else if mergeCommit ≠ commitSha then
      ActionResult.error "workflow run arguments and pull request data mismatch"
    else if mergeCommit = g.versionHash then
      ActionResult.noTag
    else
      let incrementType := parsePullRequestLabels pr.labels
      if incrementType = IncrementTypeUnknown then ActionResult.noTag
      else
        match g.version.IncrementVersion incrementType with
        | none => ActionResult.goPanic "invalid increment type"
        | some newVersion => ActionResult.createTag newVersion.string commitSha

/-- Embedding of `parsePullRequestLabels` of the `part_005` revision, which
only reports whether a `major` and whether a `minor` label is present. -/
def parsePullRequestLabelsV5 (labels : List (Option String)) : Bool × Bool :=
  labels.foldl
    (fun acc label =>
      match label with
      | none => acc
      | some name =>
        if name = IncrementTypeMajor then (true, acc.2)
        else if name = IncrementTypeMinor then (acc.1, true)
        else acc)
    (false, false)

/-- Embedding of `PerformAction` of the `part_005` revision.  That revision
dereferences `event.PullRequest` without a nil check, so a missing pull
request is a Go nil-pointer panic.  With no `major`/`minor` label it bumps
the patch version by default, and it rejects a candidate version that is not
strictly greater than the zero version. -/
def PerformActionV5 (g : GitRepository) (commitSha : String) (event : PullRequestEvent) :
    ActionResult :=
  if event.action.getD "" ≠ "closed" then
    ActionResult.error "pull request is not closed"
  else
    match event.pullRequest with
    | none => ActionResult.goPanic "nil pointer dereference"
    | some pr =>
      if pr.merged ≠ some true then
        ActionResult.error "pull request is not merged"
      else
        match pr.baseRef with
        | none => ActionResult.error "could not determine pull request base branch"
        | some baseRef =>
          if baseRef ≠ g.releaseBranch then
            ActionResult.error "pull request is merged not into the release branch"
          else
            let flags := parsePullRequestLabelsV5 pr.labels
            let inc :=
              if flags.1 then g.version.IncrementVersion IncrementTypeMajor
              else if flags.2 then g.version.IncrementVersion IncrementTypeMinor
              else g.version.IncrementVersion IncrementTypePatch
            match inc with
            | none => ActionResult.goPanic "invalid increment type"
            | some newVersion =>
              if newVersion.IsGreaterThan ⟨0, 0, 0⟩ = false then
                ActionResult.error "new version is 0.0.0"
              else ActionResult.createTag newVersion.string commitSha

/-!
Specification-side definitions, written from the spec's words, to be compared
against the source embeddings above.
-/

/-- The kinds of the recognized labels of a pull request, per the spec: "map
each label name through StringToIncrementKind". -/
def recognizedKinds (labels : List (Option String)) : List IncrementType :=
  (labels.filterMap id).map StringToIncrementType

/-- Modelled from the spec: "select the most significant kind present using
the total order Major < Minor < Patch (ignore Unknown labels)". -/
def mostSignificantKind (labels : List (Option String)) : IncrementType :=
  if IncrementTypeMajor ∈ recognizedKinds labels then IncrementTypeMajor
  else if IncrementTypeMinor ∈ recognizedKinds labels then IncrementTypeMinor
  else if IncrementTypePatch ∈ recognizedKinds labels then IncrementTypePatch
  else IncrementTypeUnknown

/-- Significance rank of an increment kind: Major is most significant. -/
def kindRank (t : IncrementType) : Nat :=
  if t = IncrementTypeMajor then 0
  else if t = IncrementTypeMinor then 1
  else if t = IncrementTypePatch then 2
  else 3

/-- The more significant of two increment kinds (ties keep the left one). -/
def minKind (a b : IncrementType) : IncrementType :=
  if kindRank a ≤ kindRank b then a else b

/-- The four values an `IncrementType` produced by this program can take. -/
def isKind (t : IncrementType) : Prop :=
  t = IncrementTypeMajor ∨ t = IncrementTypeMinor ∨ t = IncrementTypePatch
    ∨ t = IncrementTypeUnknown

/-!
Helper lemmas: `takeWhile`/`dropWhile` on appended lists, first-occurrence
indices, and cuts.  These support the correspondence between the regex
matcher, `SplitN`, and the suffix-stripping steps of `New`.
-/

theorem of_mem_takeWhile (p : Char → Bool) (l : List Char) :
    ∀ c ∈ l.takeWhile p, p c = true := by
  induction l with
  | nil => intro c hc; simp [List.takeWhile] at hc
  | cons x xs ih =>
    intro c hc
    rw [List.takeWhile_cons] at hc
    by_cases hx : p x = true
    · rw [if_pos hx] at hc
      rcases List.mem_cons.mp hc with rfl | hc'
      · exact hx
      · exact ih c hc'
    · rw [if_neg hx] at hc
      cases hc

theorem head_dropWhile_false (p : Char → Bool) (l : List Char) :
    ∀ c, (l.dropWhile p).head? = some c → p c = false := by
  induction l with
  | nil => intro c hc; simp [List.dropWhile] at hc
  | cons x xs ih =>
    intro c hc
    rw [List.dropWhile_cons] at hc
    by_cases hx : p x = true
    · rw [if_pos hx] at hc
      exact ih c hc
    · rw [if_neg hx] at hc
      simp only [List.head?_cons, Option.some.injEq] at hc
      subst hc
      exact Bool.eq_false_iff.mpr hx

theorem all_of_dropWhile_nil (p : Char → Bool) (l : List Char)
    (h : l.dropWhile p = []) : ∀ c ∈ l, p c = true := by
  induction l with
  | nil => intro c hc; cases hc
  | cons x xs ih =>
    rw [List.dropWhile_cons] at h
    by_cases hx : p x = true
    · rw [if_pos hx] at h
      intro c hc
      rcases List.mem_cons.mp hc with rfl | hc'
      · exact hx
      · exact ih h c hc'
    · rw [if_neg hx] at h
      cases h

theorem takeWhile_append_stop (p : Char → Bool) (xs ys : List Char)
    (hxs : ∀ c ∈ xs, p c = true) (hys : ∀ c, ys.head? = some c → p c = false) :
    (xs ++ ys).takeWhile p = xs := by
  induction xs with
  | nil =>
    cases ys with
    | nil => rfl
    | cons y ys' =>
      have hy := hys y rfl
      simp [List.takeWhile_cons, hy]
  | cons x xs' ih =>
    have hx := hxs x (List.mem_cons_self x xs')
    rw [List.cons_append, List.takeWhile_cons, if_pos hx,
      ih (fun c hc => hxs c (List.mem_cons_of_mem x hc))]

theorem dropWhile_append_stop (p : Char → Bool) (xs ys : List Char)
    (hxs : ∀ c ∈ xs, p c = true) (hys : ∀ c, ys.head? = some c → p c = false) :
    (xs ++ ys).dropWhile p = ys := by
  induction xs with
  | nil =>
    cases ys with
    | nil => rfl
    | cons y ys' =>
      have hy := hys y rfl
      simp [List.dropWhile_cons, hy]
  | cons x xs' ih =>
    have hx := hxs x (List.mem_cons_self x xs')
    rw [List.cons_append, List.dropWhile_cons, if_pos hx,
      ih (fun c hc => hxs c (List.mem_cons_of_mem x hc))]

theorem indexOfChar_eq_none (c : Char) (xs : List Char) (h : ∀ x ∈ xs, x ≠ c) :
    indexOfChar c xs = none := by
  induction xs with
  | nil => rfl
  | cons x xs' ih =>
    have hx := h x (List.mem_cons_self x xs')
    have ih' := ih (fun y hy => h y (List.mem_cons_of_mem x hy))
    simp [indexOfChar, if_neg hx, ih']

theorem indexOfChar_append (c : Char) (xs ys : List Char) (h : ∀ x ∈ xs, x ≠ c) :
    indexOfChar c (xs ++ c :: ys) = some xs.length := by
  induction xs with
  | nil => simp [indexOfChar]
  | cons x xs' ih =>
    have hx := h x (List.mem_cons_self x xs')
    have ih' := ih (fun y hy => h y (List.mem_cons_of_mem x hy))
    simp [indexOfChar, if_neg hx, ih']

theorem take_length_append (xs ys : List Char) : (xs ++ ys).take xs.length = xs := by
  induction xs with
  | nil => rfl
  | cons x xs' ih =>
    rw [List.cons_append, List.length_cons, List.take_succ_cons, ih]

theorem cutAtChar_of_not_mem (c : Char) (l : List Char) (h : ∀ x ∈ l, x ≠ c) :
    cutAtChar c l = l := by
  unfold cutAtChar
  rw [indexOfChar_eq_none c l h]

theorem cutAtChar_append (c : Char) (xs ys : List Char) (h : ∀ x ∈ xs, x ≠ c) :
    cutAtChar c (xs ++ c :: ys) = xs := by
  unfold cutAtChar
  rw [indexOfChar_append c xs ys h]
  exact take_length_append xs (c :: ys)

theorem head?_append_ne_nil (xs ys : List Char) (h : xs ≠ []) :
    (xs ++ ys).head? = xs.head? := by
  cases xs with
  | nil => exact absurd rfl h
  | cons x xs' => rfl

/-!
Digit characters and the decimal printer.
-/

theorem isDigit_ne_special (c : Char) (h : isDigit c = true) :
    c ≠ '.' ∧ c ≠ '+' ∧ c ≠ '-' ∧ c ≠ 'v' := by
  refine ⟨?_, ?_, ?_, ?_⟩ <;> rintro rfl <;> exact absurd h (by decide)

theorem digitChar_isDigit : ∀ n, n < 10 → isDigit (digitChar n) = true := by decide

theorem digitVal_digitChar : ∀ n, n < 10 → digitVal (digitChar n) = n := by decide

theorem digitChar_eq_zero : ∀ n, n < 10 → digitChar n = '0' → n = 0 := by decide

theorem digitsToNat_append_single (xs : List Char) (c : Char) :
    digitsToNat (xs ++ [c]) = 10 * digitsToNat xs + digitVal c := by
  unfold digitsToNat
  rw [List.foldl_append]
  simp [List.foldl]
  omega

theorem natToDigitsAux_spec (fuel : Nat) :
    ∀ n, n < fuel →
      natToDigitsAux fuel n ≠ []
        ∧ (∀ c ∈ natToDigitsAux fuel n, isDigit c = true)
        ∧ digitsToNat (natToDigitsAux fuel n) = n
        ∧ ((natToDigitsAux fuel n).head? = some '0' → n = 0) := by
  induction fuel with
  | zero => intro n h; omega
  | succ fuel ih =>
    intro n hn
    by_cases h10 : n < 10
    · simp only [natToDigitsAux, if_pos h10]
      refine ⟨by simp, ?_, ?_, ?_⟩
      · intro c hc
        rcases List.mem_singleton.mp hc with rfl
        exact digitChar_isDigit n h10
      · show digitsToNat ([] ++ [digitChar n]) = n
        rw [digitsToNat_append_single]
        simp [digitsToNat, digitVal_digitChar n h10]
      · intro hh
        simp only [List.head?_cons, Option.some.injEq] at hh
        exact digitChar_eq_zero n h10 hh
    · have hpos : 0 < n := by omega
      have hdivlt : n / 10 < n := Nat.div_lt_self hpos (by norm_num)
      have hdiv : n / 10 < fuel := by omega
      obtain ⟨hne, hdig, hval, hhead⟩ := ih (n / 10) hdiv
      simp only [natToDigitsAux, if_neg h10]
      refine ⟨by simp, ?_, ?_, ?_⟩
      · intro c hc
        rcases List.mem_append.mp hc with hc' | hc'
        · exact hdig c hc'
        · rcases List.mem_singleton.mp hc' with rfl
          exact digitChar_isDigit (n % 10) (Nat.mod_lt n (by norm_num))
      · rw [digitsToNat_append_single, hval,
          digitVal_digitChar (n % 10) (Nat.mod_lt n (by norm_num))]
        omega
      · rw [head?_append_ne_nil _ _ hne]
        intro hh
        have hz := hhead hh
        have := Nat.div_add_mod n 10
        have := Nat.mod_lt n (show 0 < 10 by norm_num)
        omega

theorem natToDigits_ne_nil (n : Nat) : natToDigits n ≠ [] :=
  (natToDigitsAux_spec (n + 1) n (Nat.lt_succ_self n)).1

theorem natToDigits_all_digits (n : Nat) : ∀ c ∈ natToDigits n, isDigit c = true :=
  (natToDigitsAux_spec (n + 1) n (Nat.lt_succ_self n)).2.1

theorem digitsToNat_natToDigits (n : Nat) : digitsToNat (natToDigits n) = n :=
  (natToDigitsAux_spec (n + 1) n (Nat.lt_succ_self n)).2.2.1

theorem natToDigits_head_zero (n : Nat) :
    (natToDigits n).head? = some '0' → natToDigits n = ['0'] := by
  intro h
  have hz := (natToDigitsAux_spec (n + 1) n (Nat.lt_succ_self n)).2.2.2 h
  subst hz
  rfl

theorem parseUint64_digits (d : List Char) (hne : d ≠ [])
    (hd : ∀ x ∈ d, isDigit x = true) :
    parseUint64 d = if digitsToNat d < UINT64_MOD then some (digitsToNat d) else none := by
  unfold parseUint64
  rw [if_neg hne, if_pos (List.all_eq_true.mpr hd)]

theorem parseUint64_natToDigits (n : Nat) (h : n < UINT64_MOD) :
    parseUint64 (natToDigits n) = some n := by
  rw [parseUint64_digits _ (natToDigits_ne_nil n) (natToDigits_all_digits n),
    digitsToNat_natToDigits, if_pos h]

/-!
Structural lemmas about the regex matcher and the parsing pipeline.
-/

theorem matchNumComp_construct (d r : List Char)
    (hd : ∀ c ∈ d, isDigit c = true) (hne : d ≠ [])
    (hlead : d.head? = some '0' → d = ['0'])
    (hr : ∀ c, r.head? = some c → isDigit c = false) :
    matchNumComp (d ++ r) = some (d, r) := by
  unfold matchNumComp
  rw [takeWhile_append_stop isDigit d r hd hr, dropWhile_append_stop isDigit d r hd hr,
    if_neg hne, if_neg]
  rintro ⟨h0, hne0⟩
  exact hne0 (hlead h0)

theorem matchNumComp_inv (l d r : List Char) (h : matchNumComp l = some (d, r)) :
    l = d ++ r ∧ d ≠ [] ∧ (∀ x ∈ d, isDigit x = true) := by
  unfold matchNumComp at h
  by_cases h1 : l.takeWhile isDigit = []
  · rw [if_pos h1] at h; cases h
  · rw [if_neg h1] at h
    by_cases h2 : (l.takeWhile isDigit).head? = some '0' ∧ l.takeWhile isDigit ≠ ['0']
    · rw [if_pos h2] at h; cases h
    · rw [if_neg h2] at h
      have hdr : l.takeWhile isDigit = d ∧ l.dropWhile isDigit = r := by
        have := Option.some.inj h
        exact ⟨congrArg Prod.fst this, congrArg Prod.snd this⟩
      obtain ⟨hd, hr⟩ := hdr
      refine ⟨?_, hd ▸ h1, ?_⟩
      · rw [← hd, ← hr, List.takeWhile_append_dropWhile]
      · intro x hx
        exact of_mem_takeWhile isDigit l x (hd ▸ hx)

theorem splitN3_canonical (d1 d2 t : List Char)
    (h1 : ∀ x ∈ d1, x ≠ '.') (h2 : ∀ x ∈ d2, x ≠ '.') :
    splitN3 (d1 ++ '.' :: (d2 ++ '.' :: t)) = [d1, d2, t] := by
  have hb1 : ∀ c ∈ d1, (fun c => decide (c ≠ '.')) c = true := by
    intro c hc; exact decide_eq_true (h1 c hc)
  have hb2 : ∀ c ∈ d2, (fun c => decide (c ≠ '.')) c = true := by
    intro c hc; exact decide_eq_true (h2 c hc)
  have hdot : ∀ (ys : List Char) c, ('.' :: ys).head? = some c →
      (fun c => decide (c ≠ '.')) c = false := by
    intro ys c hc
    simp only [List.head?_cons, Option.some.injEq] at hc
    subst hc
    simp
  unfold splitN3
  rw [dropWhile_append_stop _ d1 ('.' :: (d2 ++ '.' :: t)) hb1 (hdot _),
    takeWhile_append_stop _ d1 ('.' :: (d2 ++ '.' :: t)) hb1 (hdot _)]
  simp only
  rw [dropWhile_append_stop _ d2 ('.' :: t) hb2 (hdot _),
    takeWhile_append_stop _ d2 ('.' :: t) hb2 (hdot _)]

theorem semverMatch_canonical (a b c : Nat) :
    semverMatch ('v' :: (natToDigits a ++ '.' :: (natToDigits b ++ '.' :: natToDigits c)))
      = some (natToDigits a, natToDigits b, natToDigits c) := by
  have hdot : ∀ (ys : List Char) x, ('.' :: ys).head? = some x → isDigit x = false := by
    intro ys x hx
    simp only [List.head?_cons, Option.some.injEq] at hx
    subst hx
    decide
  have hnil : ∀ x : Char, ([] : List Char).head? = some x → isDigit x = false := by
    intro x hx; cases hx
  have hm1 := matchNumComp_construct (natToDigits a) ('.' :: (natToDigits b ++ '.' :: natToDigits c))
    (natToDigits_all_digits a) (natToDigits_ne_nil a) (natToDigits_head_zero a) (hdot _)
  have hm2 := matchNumComp_construct (natToDigits b) ('.' :: natToDigits c)
    (natToDigits_all_digits b) (natToDigits_ne_nil b) (natToDigits_head_zero b) (hdot _)
  have hm3 : matchNumComp (natToDigits c) = some (natToDigits c, []) := by
    have := matchNumComp_construct (natToDigits c) []
      (natToDigits_all_digits c) (natToDigits_ne_nil c) (natToDigits_head_zero c) hnil
    rwa [List.append_nil] at this
  unfold semverMatch
  have hstrip : stripV ('v' :: (natToDigits a ++ '.' :: (natToDigits b ++ '.' :: natToDigits c)))
      = natToDigits a ++ '.' :: (natToDigits b ++ '.' :: natToDigits c) := rfl
  rw [hstrip, hm1]
  simp only [if_pos rfl]
  rw [hm2]
  simp only [if_pos rfl]
  rw [hm3]
  rfl

theorem matchSuffix_cases (r : List Char) (h : matchSuffix r = true) :
    r = []
      ∨ (∃ pre rem, r = '-' :: (pre ++ rem)
          ∧ (∀ x ∈ pre, x ≠ '+')
          ∧ (rem = [] ∨ ∃ b, rem = '+' :: b))
      ∨ (∃ b, r = '+' :: b) := by
  cases r with
  | nil => exact Or.inl rfl
  | cons c rest =>
    unfold matchSuffix at h
    dsimp only at h
    by_cases hc : c = '-'
    · subst hc
      refine Or.inr (Or.inl ⟨rest.takeWhile (fun x => x ≠ '+'),
        rest.dropWhile (fun x => x ≠ '+'), ?_, ?_, ?_⟩)
      · rw [List.takeWhile_append_dropWhile]
      · intro x hx
        exact of_decide_eq_true (of_mem_takeWhile (fun x => decide (x ≠ '+')) rest x hx)
      · cases hrem : rest.dropWhile (fun x => x ≠ '+') with
        | nil => exact Or.inl rfl
        | cons y b =>
          have hy : (fun x => decide (x ≠ '+')) y = false :=
            head_dropWhile_false (fun x => decide (x ≠ '+')) rest y (by rw [hrem]; rfl)
          simp only [decide_eq_false_iff_not, Decidable.not_not] at hy
          exact Or.inr ⟨b, by rw [hy]⟩
    · rw [if_neg hc] at h
      by_cases hp : c = '+'
      · subst hp
        exact Or.inr (Or.inr ⟨rest, rfl⟩)
      · rw [if_neg hp] at h
        cases h

theorem stripBuildAndPre_digits (d r : List Char)
    (hd : ∀ c ∈ d, isDigit c = true) (hs : matchSuffix r = true) :
    stripBuildAndPre (d ++ r) = d := by
  have hdplus : ∀ x ∈ d, x ≠ '+' := fun x hx => (isDigit_ne_special x (hd x hx)).2.1
  have hdminus : ∀ x ∈ d, x ≠ '-' := fun x hx => (isDigit_ne_special x (hd x hx)).2.2.1
  rcases matchSuffix_cases r hs with rfl | ⟨pre, rem, rfl, hpre, hrem⟩ | ⟨b, rfl⟩
  · rw [List.append_nil]
    unfold stripBuildAndPre
    rw [cutAtChar_of_not_mem '+' d hdplus, cutAtChar_of_not_mem '-' d hdminus]
  · have hnoplus : ∀ x ∈ d ++ '-' :: pre, x ≠ '+' := by
      intro x hx
      rcases List.mem_append.mp hx with hmem | hmem
      · exact hdplus x hmem
      · rcases List.mem_cons.mp hmem with rfl | hmem'
        · decide
        · exact hpre x hmem'
    rcases hrem with rfl | ⟨b, rfl⟩
    · rw [List.append_nil]
      unfold stripBuildAndPre
      rw [cutAtChar_of_not_mem '+' _ hnoplus, cutAtChar_append '-' d pre hdminus]
    · have hassoc : d ++ '-' :: (pre ++ '+' :: b) = (d ++ '-' :: pre) ++ '+' :: b := by
        simp [List.append_assoc]
      unfold stripBuildAndPre
      rw [hassoc, cutAtChar_append '+' _ b hnoplus, cutAtChar_append '-' d pre hdminus]
  · unfold stripBuildAndPre
    rw [cutAtChar_append '+' d b hdplus, cutAtChar_of_not_mem '-' d hdminus]

theorem semverMatch_inv (l d1 d2 d3 : List Char)
    (h : semverMatch l = some (d1, d2, d3)) :
    ∃ r, stripV l = d1 ++ '.' :: (d2 ++ '.' :: (d3 ++ r))
      ∧ (∀ x ∈ d1, isDigit x = true) ∧ d1 ≠ []
      ∧ (∀ x ∈ d2, isDigit x = true) ∧ d2 ≠ []
      ∧ (∀ x ∈ d3, isDigit x = true) ∧ d3 ≠ []
      ∧ matchSuffix r = true := by
  unfold semverMatch at h
  cases h1 : matchNumComp (stripV l) with
  | none => rw [h1] at h; cases h
  | some p1 =>
    obtain ⟨e1, r1⟩ := p1
    rw [h1] at h
    cases r1 with
    | nil => simp at h
    | cons c1 r2 =>
      dsimp only at h
      by_cases hc1 : c1 = '.'
      · subst hc1
        rw [if_pos rfl] at h
        cases h2 : matchNumComp r2 with
        | none => rw [h2] at h; cases h
        | some p2 =>
          obtain ⟨e2, r3⟩ := p2
          rw [h2] at h
          cases r3 with
          | nil => simp at h
          | cons c2 r4 =>
            dsimp only at h
            by_cases hc2 : c2 = '.'
            · subst hc2
              rw [if_pos rfl] at h
              cases h3 : matchNumComp r4 with
              | none => rw [h3] at h; cases h
              | some p3 =>
                obtain ⟨e3, r5⟩ := p3
                rw [h3] at h
                dsimp only at h
                by_cases hsuf : matchSuffix r5 = true
                · rw [if_pos hsuf] at h
                  simp only [Option.some.injEq, Prod.mk.injEq] at h
                  obtain ⟨rfl, rfl, rfl⟩ := h
                  obtain ⟨hl1, hne1, hd1⟩ := matchNumComp_inv _ _ _ h1
                  obtain ⟨hl2, hne2, hd2⟩ := matchNumComp_inv _ _ _ h2
                  obtain ⟨hl3, hne3, hd3⟩ := matchNumComp_inv _ _ _ h3
                  refine ⟨r5, ?_, hd1, hne1, hd2, hne2, hd3, hne3, hsuf⟩
                  rw [hl1, hl2, hl3]
                · rw [if_neg hsuf] at h
                  cases h
            · rw [if_neg hc2] at h
              cases h
      · rw [if_neg hc1] at h
        cases h

theorem New_eval (s : String) (d1 d2 d3 : List Char)
    (h : semverMatch s.data = some (d1, d2, d3)) :
    SemVer.New s =
      match parseUint64 d1 with
      | none => newInvalidSemVerError (stripV s.data)
      | some a =>
        match parseUint64 d2 with
        | none => newInvalidSemVerError (stripV s.data)
        | some b =>
          match parseUint64 d3 with
          | none => newInvalidSemVerError (stripV s.data)
          | some c => (⟨a, b, c⟩, none) := by
  obtain ⟨r, hsplit, hd1, hne1, hd2, hne2, hd3, hne3, hsuf⟩ := semverMatch_inv s.data d1 d2 d3 h
  have hdot1 : ∀ x ∈ d1, x ≠ '.' := fun x hx => (isDigit_ne_special x (hd1 x hx)).1
  have hdot2 : ∀ x ∈ d2, x ≠ '.' := fun x hx => (isDigit_ne_special x (hd2 x hx)).1
  unfold SemVer.New
  rw [if_neg (by rw [h]; simp)]
  rw [hsplit]
  dsimp only
  rw [splitN3_canonical d1 d2 (d3 ++ r) hdot1 hdot2]
  dsimp only
  rw [stripBuildAndPre_digits d3 r hd3 hsuf]

theorem New_canonical (a b c : Nat) (ha : a < UINT64_MOD) (hb : b < UINT64_MOD)
    (hc : c < UINT64_MOD) :
    SemVer.New (SemVer.string ⟨a, b, c⟩) = (⟨a, b, c⟩, none) := by
  have hm : semverMatch (SemVer.string ⟨a, b, c⟩).data
      = some (natToDigits a, natToDigits b, natToDigits c) := semverMatch_canonical a b c
  rw [New_eval _ _ _ _ hm, parseUint64_natToDigits a ha, parseUint64_natToDigits b hb,
    parseUint64_natToDigits c hc]

theorem New_failure_value (s : String) (h : (SemVer.New s).2.isSome = true) :
    (SemVer.New s).1 = ⟨0, 0, 0⟩ := by
  cases hm : semverMatch s.data with
  | none =>
    unfold SemVer.New
    rw [if_pos (by rw [hm]; rfl)]
    rfl
  | some trip =>
    obtain ⟨d1, d2, d3⟩ := trip
    rw [New_eval s d1 d2 d3 hm] at h ⊢
    cases h1 : parseUint64 d1 with
    | none => rfl
    | some a =>
      rw [h1] at h
      dsimp only at h ⊢
      cases h2 : parseUint64 d2 with
      | none => rfl
      | some b =>
        rw [h2] at h
        dsimp only at h ⊢
        cases h3 : parseUint64 d3 with
        | none => rfl
        | some c =>
          rw [h3] at h
          simp at h

/-!
Label selection: the fold in `parsePullRequestLabels` computes the most
significant recognized kind, because Go's string order on the four constants
"major" < "minor" < "patch" < "unknown" coincides with the significance
order.
-/

theorem StringToIncrementType_isKind (name : String) :
    isKind (StringToIncrementType name) := by
  unfold StringToIncrementType isKind
  split_ifs <;> simp

theorem recognizedKinds_cons_none (ls : List (Option String)) :
    recognizedKinds (none :: ls) = recognizedKinds ls := by
  simp [recognizedKinds]

theorem recognizedKinds_cons_some (n : String) (ls : List (Option String)) :
    recognizedKinds (some n :: ls) = StringToIncrementType n :: recognizedKinds ls := by
  simp [recognizedKinds]

theorem mostSignificantKind_isKind (labels : List (Option String)) :
    isKind (mostSignificantKind labels) := by
  unfold mostSignificantKind isKind
  split_ifs <;> simp

theorem mostSignificantKind_cons_none (ls : List (Option String)) :
    mostSignificantKind (none :: ls) = mostSignificantKind ls := by
  unfold mostSignificantKind
  rw [recognizedKinds_cons_none]

theorem mostSignificantKind_cons_some (n : String) (ls : List (Option String)) :
    mostSignificantKind (some n :: ls)
      = minKind (StringToIncrementType n) (mostSignificantKind ls) := by
  have hk := recognizedKinds_cons_some n ls
  obtain h | h | h | h := StringToIncrementType_isKind n <;>
    rw [h] <;>
    unfold mostSignificantKind minKind kindRank <;>
    rw [hk, h] <;>
    by_cases hM : IncrementTypeMajor ∈ recognizedKinds ls <;>
    by_cases hm : IncrementTypeMinor ∈ recognizedKinds ls <;>
    by_cases hp : IncrementTypePatch ∈ recognizedKinds ls <;>
    simp only [IncrementTypeMajor, IncrementTypeMinor, IncrementTypePatch,
      IncrementTypeUnknown] at hM hm hp ⊢ <;>
    simp [hM, hm, hp, List.mem_cons]

theorem minKind_fold_step (t m a : IncrementType)
    (ht : isKind t) (hm : isKind m) (ha : isKind a) :
    minKind (minKind t m) a = minKind m (if goStringLt t.data a.data then t else a) := by
  obtain rfl | rfl | rfl | rfl := ht <;>
    obtain rfl | rfl | rfl | rfl := hm <;>
    obtain rfl | rfl | rfl | rfl := ha <;>
    decide

theorem foldLabels_eq (ls : List (Option String)) :
    ∀ acc : IncrementType, isKind acc →
      ls.foldl
        (fun incType label =>
          match label with
          | none => incType
          | some name =>
            let t := StringToIncrementType name
            if goStringLt t.data incType.data then t else incType) acc
      = minKind (mostSignificantKind ls) acc := by
  induction ls with
  | nil =>
    intro acc hacc
    obtain rfl | rfl | rfl | rfl := hacc <;> decide
  | cons l ls ih =>
    intro acc hacc
    rw [List.foldl_cons]
    cases l with
    | none =>
      rw [ih acc hacc, mostSignificantKind_cons_none]
    | some name =>
      dsimp only
      have hstep : isKind
          (if goStringLt (StringToIncrementType name).data acc.data
            then StringToIncrementType name else acc) := by
        split_ifs
        · exact StringToIncrementType_isKind name
        · exact hacc
      rw [ih _ hstep, mostSignificantKind_cons_some]
      exact (minKind_fold_step (StringToIncrementType name) (mostSignificantKind ls) acc
        (StringToIncrementType_isKind name) (mostSignificantKind_isKind ls) hacc).symm

theorem parsePullRequestLabels_eq_mostSignificantKind (labels : List (Option String)) :
    parsePullRequestLabels labels = mostSignificantKind labels := by
  unfold parsePullRequestLabels
  rw [foldLabels_eq labels IncrementTypeUnknown (Or.inr (Or.inr (Or.inr rfl)))]
  obtain h | h | h | h := mostSignificantKind_isKind labels <;> rw [h] <;> decide

theorem isGreaterThan_iff (a b : SemVer) :
    a.IsGreaterThan b = true ↔
      b.major < a.major
        ∨ (a.major = b.major
            ∧ (b.minor < a.minor ∨ (a.minor = b.minor ∧ b.patch < a.patch))) := by
  unfold SemVer.IsGreaterThan
  split_ifs <;> simp <;> omega

theorem mostSignificantKind_unrecognized (labels : List (Option String))
    (h : ∀ name, some name ∈ labels → StringToIncrementType name = IncrementTypeUnknown) :
    mostSignificantKind labels = IncrementTypeUnknown := by
  have hmem : ∀ t, t ∈ recognizedKinds labels → t = IncrementTypeUnknown := by
    intro t ht
    unfold recognizedKinds at ht
    rw [List.mem_map] at ht
    obtain ⟨a, ha, rfl⟩ := ht
    rw [List.mem_filterMap] at ha
    obtain ⟨o, ho, hoa⟩ := ha
    simp only [id_eq] at hoa
    subst hoa
    exact h a ho
  have hM : IncrementTypeMajor ∉ recognizedKinds labels :=
    fun hc => absurd (hmem _ hc) (by decide)
  have hm : IncrementTypeMinor ∉ recognizedKinds labels :=
    fun hc => absurd (hmem _ hc) (by decide)
  have hp : IncrementTypePatch ∉ recognizedKinds labels :=
    fun hc => absurd (hmem _ hc) (by decide)
  unfold mostSignificantKind
  rw [if_neg hM, if_neg hm, if_neg hp]

/-!
Claim theorems.
-/

/-- C1: for every pull-request label set, the increment kind selected by
`parsePullRequestLabels` is the most significant recognized kind present
under the order Major < Minor < Patch, with unrecognized labels ignored; in
particular, labels ["major", "patch"] on a closed merged event into the
release branch with current version v1.2.3 proceed with the Major increment
and request tag v2.0.0, not v1.2.4. -/
theorem claim_C1_most_significant_label_wins :
    (∀ labels : List (Option String),
      parsePullRequestLabels labels = mostSignificantKind labels)
    ∧ PerformAction ⟨"repo", "owner", "main", ⟨1, 2, 3⟩⟩ "sha1"
        ⟨some "closed", some ⟨some true, some "main", none, [some "major", some "patch"]⟩⟩
      = ActionResult.createTag "v2.0.0" "sha1" :=
  ⟨parsePullRequestLabels_eq_mostSignificantKind, by decide⟩

/-- C2 counterexample: a closed merged event whose base branch "develop"
differs from the release branch "main" does not produce the benign no-tag
outcome the claim describes; `PerformAction` returns an error. -/
theorem claim_C2_counterexample :
    PerformAction ⟨"repo", "owner", "main", ⟨1, 2, 3⟩⟩ "sha1"
        ⟨some "closed", some ⟨some true, some "develop", none, [some "minor"]⟩⟩
      ≠ ActionResult.noTag
    ∧ PerformAction ⟨"repo", "owner", "main", ⟨1, 2, 3⟩⟩ "sha1"
        ⟨some "closed", some ⟨some true, some "develop", none, [some "minor"]⟩⟩
      = ActionResult.error
          "pull request merged into a different branch (expected: main, actual: develop)" := by
  decide

/-- C2 (amended): for every closed merged event whose base branch differs
from the configured release branch, `PerformAction` returns an error
("merged into a different branch") — the run is reported as a failure, not a
benign no-op — and no tag creation is requested; the `part_005` revision
likewise returns an error in this situation. -/
theorem claim_C2_amended_wrong_branch_is_error :
    (∀ (g : Repository) (sha : String) (event : PullRequestEvent) (pr : PullRequestData),
      event.pullRequest = some pr →
      event.action = some "closed" →
      pr.merged = some true →
      pr.baseRef.getD "" ≠ g.releaseBranch →
      PerformAction g sha event
          = ActionResult.error ("pull request merged into a different branch (expected: "
              ++ g.releaseBranch ++ ", actual: " ++ pr.baseRef.getD "" ++ ")")
        ∧ ∀ t c, PerformAction g sha event ≠ ActionResult.createTag t c)
    ∧ (∀ (g : GitRepository) (sha : String) (event : PullRequestEvent)
          (pr : PullRequestData) (b : String),
        event.pullRequest = some pr →
        event.action = some "closed" →
        pr.merged = some true →
        pr.baseRef = some b →
        b ≠ g.releaseBranch →
        PerformActionV5 g sha event
          = ActionResult.error "pull request is merged not into the release branch") := by
  constructor
  · intro g sha event pr hpr hact hm hb
    have hres : PerformAction g sha event
        = ActionResult.error ("pull request merged into a different branch (expected: "
            ++ g.releaseBranch ++ ", actual: " ++ pr.baseRef.getD "" ++ ")") := by
      simp [PerformAction, hpr, hact, hm, hb]
    exact ⟨hres, fun t c h => by rw [hres] at h; exact ActionResult.noConfusion h⟩
  · intro g sha event pr b hpr hact hm hbase hb
    simp [PerformActionV5, hpr, hact, hm, hbase, hb]

/-- Witness for the amended C2 theorem at a concrete wrong-branch event. -/
theorem claim_C2_amended_witness :
    PerformAction ⟨"repo", "owner", "main", ⟨1, 2, 3⟩⟩ "sha1"
        ⟨some "closed", some ⟨some true, some "develop", none, [some "minor"]⟩⟩
      = ActionResult.error
          "pull request merged into a different branch (expected: main, actual: develop)" :=
  (claim_C2_amended_wrong_branch_is_error.1 ⟨"repo", "owner", "main", ⟨1, 2, 3⟩⟩ "sha1"
    ⟨some "closed", some ⟨some true, some "develop", none, [some "minor"]⟩⟩
    ⟨some true, some "develop", none, [some "minor"]⟩ rfl rfl rfl (by decide)).1

/-- C3: for every closed merged event targeting the release branch whose
label set contains no recognized label (none of "major", "minor", "patch"),
`PerformAction` returns successfully without requesting any tag: the current
version is retained. -/
theorem claim_C3_no_recognized_label_noop :
    ∀ (g : Repository) (sha : String) (event : PullRequestEvent) (pr : PullRequestData),
      event.pullRequest = some pr →
      event.action = some "closed" →
      pr.merged = some true →
      pr.baseRef.getD "" = g.releaseBranch →
      (∀ name, some name ∈ pr.labels → name ≠ "major" ∧ name ≠ "minor" ∧ name ≠ "patch") →
      PerformAction g sha event = ActionResult.noTag := by
  intro g sha event pr hpr hact hm hb hlab
  have hs2 : ∀ name, some name ∈ pr.labels →
      StringToIncrementType name = IncrementTypeUnknown := by
    intro name hn
    obtain ⟨h1, h2, h3⟩ := hlab name hn
    simp [StringToIncrementType, IncrementTypeMajor, IncrementTypeMinor,
      IncrementTypePatch, IncrementTypeUnknown, h1, h2, h3]
  have hparse : parsePullRequestLabels pr.labels = IncrementTypeUnknown := by
    rw [parsePullRequestLabels_eq_mostSignificantKind]
    exact mostSignificantKind_unrecognized pr.labels hs2
  simp [PerformAction, hpr, hact, hm, hb, hparse]

/-- Witness for C3 at a concrete event carrying only an unrecognized label. -/
theorem claim_C3_witness :
    PerformAction ⟨"repo", "owner", "main", ⟨1, 2, 3⟩⟩ "sha1"
        ⟨some "closed", some ⟨some true, some "main", none, [some "enhancement", none]⟩⟩
      = ActionResult.noTag :=
  claim_C3_no_recognized_label_noop ⟨"repo", "owner", "main", ⟨1, 2, 3⟩⟩ "sha1"
    ⟨some "closed", some ⟨some true, some "main", none, [some "enhancement", none]⟩⟩
    ⟨some true, some "main", none, [some "enhancement", none]⟩ rfl rfl rfl rfl
    (by intro name hn; simp at hn; subst hn; refine ⟨by decide, by decide, by decide⟩)

/-- C4: `IsGreaterThan` is the strict lexicographic order on the triple
(major, minor, patch), hence irreflexive, transitive, and antisymmetric, and
v1.0.0 < v1.0.1 < v1.1.0 < v2.0.0. -/
theorem claim_C4_isGreaterThan_strict_lex_order :
    (∀ a b : SemVer, a.IsGreaterThan b = true ↔
      b.major < a.major
        ∨ (a.major = b.major
            ∧ (b.minor < a.minor ∨ (a.minor = b.minor ∧ b.patch < a.patch))))
    ∧ (∀ a : SemVer, a.IsGreaterThan a = false)
    ∧ (∀ a b c : SemVer, a.IsGreaterThan b = true → b.IsGreaterThan c = true →
        a.IsGreaterThan c = true)
    ∧ (∀ a b : SemVer, a.IsGreaterThan b = true → b.IsGreaterThan a = false)
    ∧ (SemVer.IsGreaterThan ⟨1, 0, 1⟩ ⟨1, 0, 0⟩ = true
        ∧ SemVer.IsGreaterThan ⟨1, 1, 0⟩ ⟨1, 0, 1⟩ = true
        ∧ SemVer.IsGreaterThan ⟨2, 0, 0⟩ ⟨1, 1, 0⟩ = true) := by
  refine ⟨isGreaterThan_iff, ?_, ?_, ?_, by decide⟩
  · intro a
    unfold SemVer.IsGreaterThan
    split_ifs <;> first | rfl | omega
  · intro a b c hab hbc
    rw [isGreaterThan_iff] at hab hbc ⊢
    omega
  · intro a b hab
    rw [isGreaterThan_iff] at hab
    cases hba : b.IsGreaterThan a with
    | false => rfl
    | true =>
      have hba' := (isGreaterThan_iff b a).mp hba
      omega

/-- Witness for C4: transitivity applied at a concrete chain. -/
theorem claim_C4_witness : SemVer.IsGreaterThan ⟨2, 0, 0⟩ ⟨1, 0, 0⟩ = true :=
  claim_C4_isGreaterThan_strict_lex_order.2.2.1 ⟨2, 0, 0⟩ ⟨1, 1, 0⟩ ⟨1, 0, 0⟩
    (by decide) (by decide)

/-- C10: `IncrementVersion` performs wrapping 64-bit unsigned arithmetic: a
field equal to 2^64 - 1 wraps to 0 (so the result is not greater than the
input there), and the strict-growth invariant holds whenever the incremented
field is below 2^64 - 1. -/
theorem claim_C10_increment_wraps_uint64 :
    (SemVer.IncrementVersion ⟨UINT64_MOD - 1, 0, 0⟩ IncrementTypeMajor = some ⟨0, 0, 0⟩
      ∧ SemVer.IsGreaterThan ⟨0, 0, 0⟩ ⟨UINT64_MOD - 1, 0, 0⟩ = false
      ∧ SemVer.IncrementVersion ⟨5, UINT64_MOD - 1, 7⟩ IncrementTypeMinor = some ⟨5, 0, 0⟩
      ∧ SemVer.IsGreaterThan ⟨5, 0, 0⟩ ⟨5, UINT64_MOD - 1, 7⟩ = false
      ∧ SemVer.IncrementVersion ⟨5, 6, UINT64_MOD - 1⟩ IncrementTypePatch = some ⟨5, 6, 0⟩
      ∧ SemVer.IsGreaterThan ⟨5, 6, 0⟩ ⟨5, 6, UINT64_MOD - 1⟩ = false)
    ∧ (∀ s : SemVer, s.major < UINT64_MOD - 1 →
        ∃ v, s.IncrementVersion IncrementTypeMajor = some v ∧ v.IsGreaterThan s = true)
    ∧ (∀ s : SemVer, s.minor < UINT64_MOD - 1 →
        ∃ v, s.IncrementVersion IncrementTypeMinor = some v ∧ v.IsGreaterThan s = true)
    ∧ (∀ s : SemVer, s.patch < UINT64_MOD - 1 →
        ∃ v, s.IncrementVersion IncrementTypePatch = some v ∧ v.IsGreaterThan s = true) := by
  refine ⟨by decide, ?_, ?_, ?_⟩
  · intro s hs
    have hmod : (s.major + 1) % UINT64_MOD = s.major + 1 :=
      Nat.mod_eq_of_lt (by unfold UINT64_MOD at hs ⊢; omega)
    refine ⟨⟨s.major + 1, 0, 0⟩, ?_, ?_⟩
    · unfold SemVer.IncrementVersion
      rw [if_pos rfl, hmod]
    · unfold SemVer.IsGreaterThan
      dsimp only
      rw [if_pos (by omega)]
  · intro s hs
    have hmod : (s.minor + 1) % UINT64_MOD = s.minor + 1 :=
      Nat.mod_eq_of_lt (by unfold UINT64_MOD at hs ⊢; omega)
    refine ⟨⟨s.major, s.minor + 1, 0⟩, ?_, ?_⟩
    · unfold SemVer.IncrementVersion
      rw [if_neg (by decide), if_pos rfl, hmod]
    · unfold SemVer.IsGreaterThan
      dsimp only
      rw [if_neg (by omega), if_neg (by omega), if_pos (by omega)]
  · intro s hs
    have hmod : (s.patch + 1) % UINT64_MOD = s.patch + 1 :=
      Nat.mod_eq_of_lt (by unfold UINT64_MOD at hs ⊢; omega)
    refine ⟨⟨s.major, s.minor, s.patch + 1⟩, ?_, ?_⟩
    · unfold SemVer.IncrementVersion
      rw [if_neg (by decide), if_neg (by decide), if_pos rfl, hmod]
    · unfold SemVer.IsGreaterThan
      dsimp only
      rw [if_neg (by omega), if_neg (by omega), if_neg (by omega), if_neg (by omega),
        if_pos (by omega)]

/-- Witness for C10: the strict-growth branch applied at version 1.2.3. -/
theorem claim_C10_witness :
    ∃ v, SemVer.IncrementVersion ⟨1, 2, 3⟩ IncrementTypeMajor = some v
      ∧ SemVer.IsGreaterThan v ⟨1, 2, 3⟩ = true :=
  claim_C10_increment_wraps_uint64.2.1 ⟨1, 2, 3⟩ (by decide)

/-- C8 counterexample: in the strict-mode revision (`part_004`), a closed
merged event into the release branch whose merge commit equals the already
tagged commit is NOT a no-op when the workflow-supplied commit SHA differs
from the merge commit: the earlier mismatch check rejects the run with an
error. -/
theorem claim_C8_counterexample :
    PerformActionV4 ⟨"repo", "owner", "main", ⟨1, 2, 3⟩, "abc"⟩ "def"
        ⟨some "closed", some ⟨some true, some "main", some "abc", [some "minor"]⟩⟩
      ≠ ActionResult.noTag
    ∧ PerformActionV4 ⟨"repo", "owner", "main", ⟨1, 2, 3⟩, "abc"⟩ "def"
        ⟨some "closed", some ⟨some true, some "main", some "abc", [some "minor"]⟩⟩
      = ActionResult.error "workflow run arguments and pull request data mismatch" := by
  decide

/-- C8 (amended): in the strict-mode revision, for every closed merged event
targeting the release branch whose merge commit equals the workflow commit
SHA, if that commit equals the commit already recorded as tagged with the
current highest version, PerformActionV4 returns successfully without
requesting any tag, regardless of the labels — the check happens before
label inspection, so a tag is never created twice for the same merge
commit. -/
theorem claim_C8_amended_already_tagged_noop :
    ∀ (g : RepositoryV4) (sha : String) (event : PullRequestEvent) (pr : PullRequestData),
      event.pullRequest = some pr →
      event.action = some "closed" →
      pr.merged = some true →
      pr.baseRef.getD "" = g.releaseBranch →
      pr.mergeCommitSha.getD "" = sha →
      pr.mergeCommitSha.getD "" = g.versionHash →
      PerformActionV4 g sha event = ActionResult.noTag := by
  intro g sha event pr hpr hact hm hb hsha hhash
  have hsv : sha = g.versionHash := by rw [← hsha, hhash]
  simp [PerformActionV4, hpr, hact, hm, hb, hsha, hhash, hsv]

/-- Witness for the amended C8 theorem: a duplicate invocation for an
already tagged merge commit is a successful no-op. -/
theorem claim_C8_amended_witness :
    PerformActionV4 ⟨"repo", "owner", "main", ⟨1, 2, 3⟩, "abc"⟩ "abc"
        ⟨some "closed", some ⟨some true, some "main", some "abc", [some "minor"]⟩⟩
      = ActionResult.noTag :=
  claim_C8_amended_already_tagged_noop ⟨"repo", "owner", "main", ⟨1, 2, 3⟩, "abc"⟩ "abc"
    ⟨some "closed", some ⟨some true, some "main", some "abc", [some "minor"]⟩⟩
    ⟨some true, some "main", some "abc", [some "minor"]⟩ rfl rfl rfl rfl rfl rfl

/-- C9: in the `part_005` revision, after the increment kind is selected
(major, else minor, else patch by default), if the computed candidate is not
strictly greater than the zero version the outcome is the error "new version
is 0.0.0" and no tag creation is requested; otherwise the outcome requests a
tag at the candidate version. -/
theorem claim_C9_zero_candidate_guard :
    ∀ (g : GitRepository) (sha : String) (event : PullRequestEvent)
      (pr : PullRequestData) (nv : SemVer),
      event.pullRequest = some pr →
      event.action = some "closed" →
      pr.merged = some true →
      pr.baseRef = some g.releaseBranch →
      (if (parsePullRequestLabelsV5 pr.labels).1 then
          g.version.IncrementVersion IncrementTypeMajor
        else if (parsePullRequestLabelsV5 pr.labels).2 then
          g.version.IncrementVersion IncrementTypeMinor
        else g.version.IncrementVersion IncrementTypePatch) = some nv →
      (nv.IsGreaterThan ⟨0, 0, 0⟩ = false →
          PerformActionV5 g sha event = ActionResult.error "new version is 0.0.0"
            ∧ ∀ t c, PerformActionV5 g sha event ≠ ActionResult.createTag t c)
        ∧ (nv.IsGreaterThan ⟨0, 0, 0⟩ = true →
            PerformActionV5 g sha event = ActionResult.createTag nv.string sha) := by
  intro g sha event pr nv hpr hact hm hbase hinc
  constructor
  · intro hz
    have hres : PerformActionV5 g sha event = ActionResult.error "new version is 0.0.0" := by
      simp [PerformActionV5, hpr, hact, hm, hbase, hinc, hz]
    exact ⟨hres, fun t c h => by rw [hres] at h; exact ActionResult.noConfusion h⟩
  · intro hgt
    simp [PerformActionV5, hpr, hact, hm, hbase, hinc, hgt]

/-- Witness for C9: both guard branches at concrete states — a wrapped
candidate 0.0.0 is rejected, and a normal candidate v1.2.4 is tagged. -/
theorem claim_C9_witness :
    PerformActionV5 ⟨"repo", "owner", "main", ⟨UINT64_MOD - 1, 0, 0⟩⟩ "sha1"
        ⟨some "closed", some ⟨some true, some "main", none, [some "major"]⟩⟩
      = ActionResult.error "new version is 0.0.0"
    ∧ PerformActionV5 ⟨"repo", "owner", "main", ⟨1, 2, 3⟩⟩ "sha1"
        ⟨some "closed", some ⟨some true, some "main", none, []⟩⟩
      = ActionResult.createTag (SemVer.string ⟨1, 2, 4⟩) "sha1" :=
  ⟨((claim_C9_zero_candidate_guard ⟨"repo", "owner", "main", ⟨UINT64_MOD - 1, 0, 0⟩⟩ "sha1"
      ⟨some "closed", some ⟨some true, some "main", none, [some "major"]⟩⟩
      ⟨some true, some "main", none, [some "major"]⟩ ⟨0, 0, 0⟩
      rfl rfl rfl rfl (by decide)).1 (by decide)).1,
    (claim_C9_zero_candidate_guard ⟨"repo", "owner", "main", ⟨1, 2, 3⟩⟩ "sha1"
      ⟨some "closed", some ⟨some true, some "main", none, []⟩⟩
      ⟨some true, some "main", none, []⟩ ⟨1, 2, 4⟩
      rfl rfl rfl rfl (by decide)).2 (by decide)⟩

/-- C5: for every string matching the semantic-version grammar, parsing,
formatting the result, and parsing again reproduces the same numeric triple
(round-trip on the numeric core; discarded suffixes are ignored, and a
component overflowing uint64 parses to the zero value on both sides). -/
theorem claim_C5_parse_format_roundtrip :
    ∀ s : String, (semverMatch s.data).isSome = true →
      (SemVer.New ((SemVer.New s).1.string)).1 = (SemVer.New s).1 := by
  intro s hs
  rw [Option.isSome_iff_exists] at hs
  obtain ⟨trip, hm⟩ := hs
  obtain ⟨d1, d2, d3⟩ := trip
  obtain ⟨r, hsplit, hd1, hne1, hd2, hne2, hd3, hne3, hsuf⟩ :=
    semverMatch_inv s.data d1 d2 d3 hm
  rw [New_eval s d1 d2 d3 hm, parseUint64_digits d1 hne1 hd1,
    parseUint64_digits d2 hne2 hd2, parseUint64_digits d3 hne3 hd3]
  by_cases h1 : digitsToNat d1 < UINT64_MOD
  · rw [if_pos h1]
    dsimp only
    by_cases h2 : digitsToNat d2 < UINT64_MOD
    · rw [if_pos h2]
      dsimp only
      by_cases h3 : digitsToNat d3 < UINT64_MOD
      · rw [if_pos h3]
        dsimp only
        rw [New_canonical _ _ _ h1 h2 h3]
      · rw [if_neg h3]
        dsimp only [newInvalidSemVerError]
        rw [New_canonical 0 0 0 (by decide) (by decide) (by decide)]
    · rw [if_neg h2]
      dsimp only [newInvalidSemVerError]
      rw [New_canonical 0 0 0 (by decide) (by decide) (by decide)]
  · rw [if_neg h1]
    dsimp only [newInvalidSemVerError]
    rw [New_canonical 0 0 0 (by decide) (by decide) (by decide)]

/-- Witness for C5 at a concrete grammar-matching string with a prerelease
suffix. -/
theorem claim_C5_witness :
    (SemVer.New ((SemVer.New "1.2.3-rc.1").1.string)).1 = (SemVer.New "1.2.3-rc.1").1 :=
  claim_C5_parse_format_roundtrip "1.2.3-rc.1" (by decide)

/-- C6: `New` fails exactly when the text does not match the semantic-version
grammar or some numeric component does not fit uint64; whenever it fails,
the value returned alongside the error is the zero SemVer. -/
theorem claim_C6_parse_failure_characterization :
    ∀ s : String,
      ((SemVer.New s).2.isSome = true ↔
        semverMatch s.data = none
          ∨ ∃ d1 d2 d3, semverMatch s.data = some (d1, d2, d3)
              ∧ (UINT64_MOD ≤ digitsToNat d1 ∨ UINT64_MOD ≤ digitsToNat d2
                  ∨ UINT64_MOD ≤ digitsToNat d3))
      ∧ ((SemVer.New s).2.isSome = true → (SemVer.New s).1 = ⟨0, 0, 0⟩) := by
  intro s
  refine ⟨?_, New_failure_value s⟩
  cases hm : semverMatch s.data with
  | none =>
    have hfail : (SemVer.New s).2.isSome = true := by
      unfold SemVer.New
      rw [if_pos (by rw [hm]; rfl)]
      rfl
    simp [hfail, hm]
  | some trip =>
    obtain ⟨d1, d2, d3⟩ := trip
    obtain ⟨r, hsplit, hd1, hne1, hd2, hne2, hd3, hne3, hsuf⟩ :=
      semverMatch_inv s.data d1 d2 d3 hm
    rw [New_eval s d1 d2 d3 hm, parseUint64_digits d1 hne1 hd1,
      parseUint64_digits d2 hne2 hd2, parseUint64_digits d3 hne3 hd3]
    by_cases h1 : digitsToNat d1 < UINT64_MOD <;>
      by_cases h2 : digitsToNat d2 < UINT64_MOD <;>
        by_cases h3 : digitsToNat d3 < UINT64_MOD <;>
          simp [hm, h1, h2, h3, newInvalidSemVerError] <;>
          exact ⟨d1, d2, d3, ⟨rfl, rfl, rfl⟩, by omega⟩

/-- Witness for C6: "01.0.0" (a leading zero) fails and carries the zero
value. -/
theorem claim_C6_witness :
    (SemVer.New "01.0.0").2.isSome = true ∧ (SemVer.New "01.0.0").1 = ⟨0, 0, 0⟩ :=
  ⟨by decide, (claim_C6_parse_failure_characterization "01.0.0").2 (by decide)⟩

/-- C7: prerelease and build suffixes are stripped before integer conversion
and do not affect the numeric triple: any two grammar-matching strings with
the same numeric components parse alike, and the concrete suffixed examples
all parse to (1, 0, 1) with no error. -/
theorem claim_C7_suffixes_discarded :
    (∀ (s t : String) (d1 d2 d3 : List Char),
      semverMatch s.data = some (d1, d2, d3) →
      semverMatch t.data = some (d1, d2, d3) →
      (SemVer.New s).1 = (SemVer.New t).1
        ∧ (SemVer.New s).2.isSome = (SemVer.New t).2.isSome)
    ∧ SemVer.New "1.0.1-rc.1" = (⟨1, 0, 1⟩, none)
    ∧ SemVer.New "1.0.1+build.1" = (⟨1, 0, 1⟩, none)
    ∧ SemVer.New "1.0.1-rc.1+build.7" = (⟨1, 0, 1⟩, none) := by
  refine ⟨?_, by decide, by decide, by decide⟩
  intro s t d1 d2 d3 hs ht
  rw [New_eval s d1 d2 d3 hs, New_eval t d1 d2 d3 ht]
  cases parseUint64 d1 with
  | none => exact ⟨rfl, rfl⟩
  | some a =>
    cases parseUint64 d2 with
    | none => exact ⟨rfl, rfl⟩
    | some b =>
      cases parseUint64 d3 with
      | none => exact ⟨rfl, rfl⟩
      | some c => exact ⟨rfl, rfl⟩

/-- Witness for C7: a prerelease string and a build-metadata string with the
same numeric components parse to the same value. -/
theorem claim_C7_witness :
    (SemVer.New "1.0.1-rc.5").1 = (SemVer.New "v1.0.1+b1").1
      ∧ (SemVer.New "1.0.1-rc.5").2.isSome = (SemVer.New "v1.0.1+b1").2.isSome :=
  claim_C7_suffixes_discarded.1 "1.0.1-rc.5" "v1.0.1+b1" ['1'] ['0'] ['1']
    (by decide) (by decide)
